import Mathlib

/-!
Verification of the data-retrieval module (`src/assignment_2/data_retrieval.py`).

The module has two logical operations:
* `build_query` — turns a local artist record into a Lucene query string;
* `update_artist_from_mb` — merges a MusicBrainz artist record into a local
  artist record under an overwrite policy (inner helper `set_field`).

We embed the Python dictionaries shallowly: local artist records become a
structure of optional Python-like values (`PyVal`), external MusicBrainz
records become a structure mirroring the keys the code reads, and a Python
`KeyError` (or other lookup failure) is modelled by returning `none`.
-/

/-- A Python value as it can occur in the fields of the records this module
manipulates: a string, a boolean (MusicBrainz `ended` may be a boolean), or a
list. -/
inductive PyVal where
  | vStr (s : String)
  | vBool (b : Bool)
  | vList (l : List PyVal)

mutual

/-- Python `repr` of a value, as used when a non-string value is interpolated
inside a list display. -/
def pyRepr : PyVal → String
  | .vStr s => "'" ++ s ++ "'"
  | .vBool b => if b then "True" else "False"
  | .vList l => "[" ++ pyReprInner l ++ "]"

def pyReprInner : List PyVal → String
  | [] => ""
  | [x] => pyRepr x
  | x :: y :: xs => pyRepr x ++ ", " ++ pyReprInner (y :: xs)

end

/-- Python `str` of a value, as used by f-string interpolation in
`build_query`. -/
def pyStr : PyVal → String
  | .vStr s => s
  | .vBool b => if b then "True" else "False"
  | .vList l => pyRepr (.vList l)

/-- Python `str.lower()`, character by character (the module only compares
against the ASCII literals `"male"`/`"female"`). -/
def py_lower (s : String) : String := ⟨s.data.map Char.toLower⟩

/-- Python `str.startswith(pre)`: the characters of `pre` are a prefix of the
characters of `s`. -/
def py_startswith (s pre : String) : Bool := pre.data.isPrefixOf s.data

/-- Python truthiness of a value (`if artist.get("name"):`). -/
def pyTruthy : PyVal → Bool
  | .vStr s => s ≠ ""
  | .vBool b => b
  | .vList l => !l.isEmpty

/-- Truthiness of `dict.get(key)`: `None` (absent) is falsy. -/
def truthyOpt : Option PyVal → Bool
  | some v => pyTruthy v
  | none => false

/-- `artist.get(key) in (None, "", [])` — the emptiness test of `set_field`.
Python `==` against `None`, `""` and `[]` only holds for exactly those
values among the values of `PyVal`. -/
def pyEmpty : Option PyVal → Bool
  | none => true
  | some (.vStr s) => s == ""
  | some (.vList l) => l.isEmpty
  | some (.vBool _) => false

/-- The target fields of the local artist record that the module touches
(the key strings passed to `set_field` and read by `build_query`). -/
inductive FieldKey where
  | id_author | name | gender | birth_date | active_start | active_end
  | country | birth_place | description | nationality
  deriving DecidableEq

/-- The local artist record: a mapping from the target field names to
optional values (`none` = key absent or `None`). -/
structure Artist where
  id_author : Option PyVal := none
  name : Option PyVal := none
  gender : Option PyVal := none
  birth_date : Option PyVal := none
  active_start : Option PyVal := none
  active_end : Option PyVal := none
  country : Option PyVal := none
  birth_place : Option PyVal := none
  description : Option PyVal := none
  nationality : Option PyVal := none

/-- Reading `artist.get(key)`. -/
def Artist.get (a : Artist) : FieldKey → Option PyVal
  | .id_author => a.id_author
  | .name => a.name
  | .gender => a.gender
  | .birth_date => a.birth_date
  | .active_start => a.active_start
  | .active_end => a.active_end
  | .country => a.country
  | .birth_place => a.birth_place
  | .description => a.description
  | .nationality => a.nationality

/-- Writing `artist[key] = value`. -/
def Artist.set (a : Artist) : FieldKey → Option PyVal → Artist
  | .id_author, v => { a with id_author := v }
  | .name, v => { a with name := v }
  | .gender, v => { a with gender := v }
  | .birth_date, v => { a with birth_date := v }
  | .active_start, v => { a with active_start := v }
  | .active_end, v => { a with active_end := v }
  | .country, v => { a with country := v }
  | .birth_place, v => { a with birth_place := v }
  | .description, v => { a with description := v }
  | .nationality, v => { a with nationality := v }

/-- The table `countries_map = {'Italia': 'IT'}`. -/
def countries_map : List (String × String) := [("Italia", "IT")]

/-- Subscripting `countries_map[country]`, a Python dict access. It succeeds only for a
string key present in the map; any other value raises (`KeyError`, or
`TypeError` for an unhashable value), modelled by `none`. -/
def country_code : PyVal → Option String
  | .vStr s => countries_map.lookup s
  | _ => none

/-- The clause list `build_query` accumulates before joining (`clauses` in the
source); `none` models the `KeyError` escaping from `countries_map[country]`. -/
def build_clauses (artist : Artist) : Option (List String) :=
  let clauses : List String :=
    match artist.get .name with
    | some v => if pyTruthy v then ["name:\"" ++ pyStr v ++ "\""] else []
    | none => []
  match artist.get .country with
  | some v =>
      if pyTruthy v then
        match country_code v with
        | some code => some (clauses ++ ["country:\"" ++ code ++ "\""])
        | none => none
      else some (clauses ++ ["country:\"IT\""])
  | none => some (clauses ++ ["country:\"IT\""])

/-- The query builder `build_query(artist)`: `" AND ".join(clauses)`; `none` models the
uncaught `KeyError` for an unmapped country. -/
def build_query (artist : Artist) : Option String :=
  (build_clauses artist).map (String.intercalate " AND ")

/-- The `life-span` sub-dictionary of a MusicBrainz record. -/
structure LifeSpan where
  begin : Option String := none
  ended : Option PyVal := none

/-- An `area` / `begin-area` sub-dictionary. -/
structure AreaRec where
  name : Option String := none

/-- An entry of `tag-list`. -/
structure TagRec where
  name : Option String := none

/-- An entry of `alias-list`. -/
structure AliasRec where
  locale : Option String := none

/-- A MusicBrainz NGS artist record, with the keys `update_artist_from_mb`
reads; `none` models an absent key. -/
structure MBArtist where
  id : Option String := none
  name : Option String := none
  gender : Option String := none
  life_span : Option LifeSpan := none
  area : Option AreaRec := none
  begin_area : Option AreaRec := none
  tag_list : Option (List TagRec) := none
  alias_list : Option (List AliasRec) := none

/-- The setter `set_field(key, value)` — the inner helper of `update_artist_from_mb`,
with the captured `artist` and `overwrite` made explicit. -/
def set_field (overwrite : Bool) (artist : Artist) (key : FieldKey)
    (value : Option PyVal) : Artist :=
  match value with
  | none => artist
  | some v =>
      if overwrite || pyEmpty (artist.get key) then artist.set key (some v)
      else artist

/-- The guard `ended not in ("false", False, None)` used before writing
`active_end`. -/
def ended_flag : Option PyVal → Bool
  | none => false
  | some (.vStr s) => !(s == "false")
  | some (.vBool b) => b
  | some (.vList _) => true

/-- The comprehension `[t["name"] for t in mb["tag-list"]]`: the subscript `t["name"]` raises
`KeyError` when a tag entry has no `"name"` key, modelled by `none`. -/
def tag_names : List TagRec → Option (List String)
  | [] => some []
  | t :: ts =>
      match t.name with
      | none => none
      | some n => (tag_names ts).map (fun ns => n :: ns)

/-- The alias loop: for each entry of `alias-list` whose locale starts with
`"it"`, `set_field("nationality", "Italia")`. -/
def apply_aliases (overwrite : Bool) (artist : Artist) : List AliasRec → Artist
  | [] => artist
  | al :: rest =>
      apply_aliases overwrite
        (if py_startswith (al.locale.getD "") "it" then
          set_field overwrite artist .nationality (some (.vStr "Italia"))
        else artist) rest

/-- Truthiness of an optional string (`if gender:` on `mb.get("gender")`):
absent and empty are falsy. -/
def truthyStr : Option String → Bool
  | some s => s ≠ ""
  | none => false

/-- The gender normalization expression:
`"M" if gender.lower() == "male" else "F" if gender.lower() == "female" else None`. -/
def normalize_gender (g : String) : Option PyVal :=
  if py_lower g == "male" then some (.vStr "M")
  else if py_lower g == "female" then some (.vStr "F")
  else none

/-- The merge `update_artist_from_mb(artist, mb, overwrite)`. The result is `none`
exactly when the tag-list comprehension raises `KeyError`. -/
def update_artist_from_mb (artist : Artist) (mb : MBArtist) (overwrite : Bool) :
    Option Artist :=
  let a1 := set_field overwrite artist .id_author (mb.id.map PyVal.vStr)
  let a2 := set_field overwrite a1 .name (mb.name.map PyVal.vStr)
  let a3 :=
    if truthyStr mb.gender then
      set_field overwrite a2 .gender (normalize_gender (mb.gender.getD ""))
    else a2
  let ls := mb.life_span.getD {}
  let a4 := set_field overwrite a3 .birth_date (ls.begin.map PyVal.vStr)
  let a5 := set_field overwrite a4 .active_start (ls.begin.map PyVal.vStr)
  let a6 :=
    if ended_flag ls.ended then set_field overwrite a5 .active_end ls.ended else a5
  let a7 :=
    if mb.area.isSome then
      set_field overwrite a6 .country ((mb.area.getD {}).name.map PyVal.vStr)
    else a6
  let a8 :=
    if mb.begin_area.isSome then
      set_field overwrite a7 .birth_place ((mb.begin_area.getD {}).name.map PyVal.vStr)
    else a7
  match mb.tag_list with
  | some ts =>
      (tag_names ts).map (fun tags =>
        let a9 :=
          if tags.isEmpty then a8
          else set_field overwrite a8 .description
            (some (.vStr (String.intercalate ", " tags)))
        apply_aliases overwrite a9 (mb.alias_list.getD []))
  | none => some (apply_aliases overwrite a8 (mb.alias_list.getD []))

/-- The candidate value the merge derives from the external record for each
target field (the spec's field table, read off the source derivations). -/
def candidate (mb : MBArtist) : FieldKey → Option PyVal
  | .id_author => mb.id.map PyVal.vStr
  | .name => mb.name.map PyVal.vStr
  | .gender =>
      if truthyStr mb.gender then normalize_gender (mb.gender.getD "") else none
  | .birth_date => ((mb.life_span.getD {}).begin).map PyVal.vStr
  | .active_start => ((mb.life_span.getD {}).begin).map PyVal.vStr
  | .active_end =>
      if ended_flag (mb.life_span.getD {}).ended then (mb.life_span.getD {}).ended
      else none
  | .country =>
      if mb.area.isSome then (mb.area.getD {}).name.map PyVal.vStr else none
  | .birth_place =>
      if mb.begin_area.isSome then (mb.begin_area.getD {}).name.map PyVal.vStr
      else none
  | .description =>
      match mb.tag_list with
      | some ts =>
          match tag_names ts with
          | some tags =>
              if tags.isEmpty then none
              else some (.vStr (String.intercalate ", " tags))
          | none => none
      | none => none
  | .nationality =>
      if (mb.alias_list.getD []).any (fun al => py_startswith (al.locale.getD "") "it") then
        some (.vStr "Italia")
      else none

/-- The per-field resolution `set_field` performs given the current value and
a candidate. -/
def merge_one (overwrite : Bool) (cur : Option PyVal) : Option PyVal → Option PyVal
  | none => cur
  | some v => if overwrite || pyEmpty cur then some v else cur

theorem Artist.get_set_self (a : Artist) (k : FieldKey) (v : Option PyVal) :
    (a.set k v).get k = v := by
  cases k <;> rfl

theorem Artist.get_set_ne (a : Artist) (k f : FieldKey) (v : Option PyVal)
    (h : k ≠ f) : (a.set k v).get f = a.get f := by
  cases k <;> cases f <;> first | rfl | exact absurd rfl h

theorem Artist.ext_get (a b : Artist) (h : ∀ f, a.get f = b.get f) : a = b := by
  cases a; cases b
  simp only [Artist.mk.injEq]
  exact ⟨h .id_author, h .name, h .gender, h .birth_date, h .active_start,
    h .active_end, h .country, h .birth_place, h .description, h .nationality⟩

theorem set_field_get_self (ow : Bool) (a : Artist) (k : FieldKey)
    (v : Option PyVal) : (set_field ow a k v).get k = merge_one ow (a.get k) v := by
  cases v with
  | none => rfl
  | some v' =>
      simp only [set_field, merge_one]
      split
      · exact Artist.get_set_self a k (some v')
      · rfl

theorem set_field_get_ne (ow : Bool) (a : Artist) (k f : FieldKey)
    (v : Option PyVal) (h : k ≠ f) : (set_field ow a k v).get f = a.get f := by
  cases v with
  | none => rfl
  | some v' =>
      simp only [set_field]
      split
      · exact Artist.get_set_ne a k f (some v') h
      · rfl

theorem merge_one_none (ow : Bool) (c : Option PyVal) : merge_one ow c none = c := rfl

theorem merge_one_idem (ow : Bool) (c v : Option PyVal) :
    merge_one ow (merge_one ow c v) v = merge_one ow c v := by
  cases v with
  | none => rfl
  | some v' =>
      simp only [merge_one]
      split
      · split <;> rfl
      · rfl

theorem apply_aliases_get_ne (ow : Bool) (a : Artist) (l : List AliasRec)
    (f : FieldKey) (h : f ≠ FieldKey.nationality) :
    (apply_aliases ow a l).get f = a.get f := by
  induction l generalizing a with
  | nil => rfl
  | cons al rest ih =>
      simp only [apply_aliases]
      rw [ih]
      split
      · exact set_field_get_ne ow a .nationality f _ (Ne.symm h)
      · rfl

theorem apply_aliases_get_nat (ow : Bool) (a : Artist) (l : List AliasRec) :
    (apply_aliases ow a l).get .nationality
      = merge_one ow (a.get .nationality)
          (if l.any (fun al => py_startswith (al.locale.getD "") "it") then
            some (.vStr "Italia") else none) := by
  induction l generalizing a with
  | nil => rfl
  | cons al rest ih =>
      simp only [apply_aliases, List.any_cons]
      by_cases hal : (py_startswith (al.locale.getD "") "it") = true
      · rw [if_pos hal, ih, set_field_get_self]
        by_cases hr : (rest.any fun al => py_startswith (al.locale.getD "") "it") = true
        · simp [hal, hr, merge_one_idem]
        · rw [Bool.not_eq_true] at hr
          simp [hal, hr, merge_one_none]
      · rw [Bool.not_eq_true] at hal
        simp [hal, ih]

theorem Artist.get_ite (c : Prop) [inst : Decidable c] (x y : Artist) (f : FieldKey) :
    (if c then x else y).get f = if c then x.get f else y.get f :=
  apply_ite (fun z => Artist.get z f) c x y

theorem merge_one_ite (ow : Bool) (cur : Option PyVal) (c : Prop)
    [inst : Decidable c] (v w : Option PyVal) :
    merge_one ow cur (if c then v else w)
      = if c then merge_one ow cur v else merge_one ow cur w :=
  apply_ite (merge_one ow cur) c v w

theorem update_eq_none_iff (a : Artist) (mb : MBArtist) (ow : Bool) :
    update_artist_from_mb a mb ow = none ↔
      ∃ ts, mb.tag_list = some ts ∧ tag_names ts = none := by
  cases htl : mb.tag_list with
  | none => simp [update_artist_from_mb, htl]
  | some ts => simp [update_artist_from_mb, htl, Option.map_eq_none']

theorem update_get (a : Artist) (mb : MBArtist) (ow : Bool) (r : Artist)
    (h : update_artist_from_mb a mb ow = some r) (f : FieldKey) :
    r.get f = merge_one ow (a.get f) (candidate mb f) := by
  cases htl : mb.tag_list with
  | none =>
      simp only [update_artist_from_mb, htl, Option.some.injEq] at h
      subst h
      cases f <;>
        simp [candidate, htl, apply_aliases_get_ne, apply_aliases_get_nat,
          Artist.get_ite, set_field_get_ne, set_field_get_self, merge_one_ite,
          merge_one_none]
  | some ts =>
      cases htn : tag_names ts with
      | none => simp [update_artist_from_mb, htl, htn] at h
      | some tags =>
          simp only [update_artist_from_mb, htl, htn, Option.map_some',
            Option.some.injEq] at h
          subst h
          cases f <;>
            simp [candidate, htl, htn, apply_aliases_get_ne, apply_aliases_get_nat,
              Artist.get_ite, set_field_get_ne, set_field_get_self, merge_one_ite,
              merge_one_none]

theorem tag_names_eq_none_iff (ts : List TagRec) :
    tag_names ts = none ↔ ∃ t ∈ ts, t.name = none := by
  induction ts with
  | nil => simp [tag_names]
  | cons t ts ih =>
      cases ht : t.name with
      | none => simp [tag_names, ht]
      | some n => simp [tag_names, ht, Option.map_eq_none', ih]

/-- C1: with `overwrite=false`, a local field that already holds a non-empty
value (not `None`, not `""`, not `[]`) is unchanged by `merge`, whatever the
external record contains. -/
theorem C1_nonempty_local_field_preserved (a : Artist) (mb : MBArtist)
    (f : FieldKey) (r : Artist) (hne : pyEmpty (a.get f) = false)
    (h : update_artist_from_mb a mb false = some r) :
    r.get f = a.get f := by
  rw [update_get a mb false r h f]
  cases hc : candidate mb f with
  | none => rfl
  | some v => simp [merge_one, hne]

theorem C1_witness :
    pyEmpty (Artist.get { name := some (PyVal.vStr "Verdi") } FieldKey.name) = false
    ∧ Artist.get
        { id_author := some (PyVal.vStr "x1"), name := some (PyVal.vStr "Verdi") }
        FieldKey.name
      = Artist.get { name := some (PyVal.vStr "Verdi") } FieldKey.name :=
  ⟨rfl, C1_nonempty_local_field_preserved
    { name := some (PyVal.vStr "Verdi") }
    { id := some "x1", name := some "Wagner" }
    FieldKey.name
    { id_author := some (PyVal.vStr "x1"), name := some (PyVal.vStr "Verdi") }
    rfl rfl⟩

/-- C2: `merge` with `overwrite=false` is idempotent — applying the same
external record a second time to the result changes nothing (including the
error outcome). -/
theorem C2_merge_idempotent (a : Artist) (mb : MBArtist) :
    (update_artist_from_mb a mb false).bind
        (fun r => update_artist_from_mb r mb false)
      = update_artist_from_mb a mb false := by
  cases h : update_artist_from_mb a mb false with
  | none => rfl
  | some r =>
      show update_artist_from_mb r mb false = some r
      have hne : update_artist_from_mb r mb false ≠ none := by
        rw [Ne, update_eq_none_iff]
        intro hex
        have hcontra : update_artist_from_mb a mb false = none :=
          (update_eq_none_iff a mb false).2 hex
        rw [h] at hcontra
        exact Option.noConfusion hcontra
      obtain ⟨r2, h2⟩ := Option.ne_none_iff_exists'.mp hne
      have hrr : r2 = r := Artist.ext_get r2 r (fun f => by
        rw [update_get r mb false r2 h2 f, update_get a mb false r h f,
          merge_one_idem])
      rw [h2, hrr]

/-- C3: `build_query` fails (uncaught key lookup error) exactly when the
local country field is present and truthy but is not a key of
`countries_map`. -/
theorem C3_unmapped_country_error (a : Artist) :
    build_query a = none ↔
      ∃ v, a.get .country = some v ∧ pyTruthy v = true ∧ country_code v = none := by
  rw [build_query]
  cases hc : a.get .country with
  | none => simp [build_clauses, hc]
  | some v =>
      cases ht : pyTruthy v with
      | false => simp [build_clauses, hc, ht]
      | true =>
          cases hcc : country_code v with
          | none => simp [build_clauses, hc, ht, hcc]
          | some code => simp [build_clauses, hc, ht, hcc]

/-- C4 counterexample: a tag-list entry without a `"name"` key makes `merge`
raise a `KeyError` (the comprehension uses `t["name"]`), so the call does not
complete normally. -/
theorem C4_counterexample :
    update_artist_from_mb {} { tag_list := some [{}] } false = none := rfl

/-- C4 (amended): `merge` completes normally if and only if every entry of a
present `tag-list` has a `"name"` key; all other missing keys yield absent
candidates that are silently skipped. -/
theorem C4_merge_error_condition (a : Artist) (mb : MBArtist) (ow : Bool) :
    (update_artist_from_mb a mb ow).isSome = true ↔
      ∀ ts, mb.tag_list = some ts → ∀ t ∈ ts, t.name ≠ none := by
  rw [Option.isSome_iff_ne_none, Ne, update_eq_none_iff]
  constructor
  · intro h ts hts t hmem hname
    exact h ⟨ts, hts, (tag_names_eq_none_iff ts).2 ⟨t, hmem, hname⟩⟩
  · rintro h ⟨ts, hts, htn⟩
    obtain ⟨t, hmem, hname⟩ := (tag_names_eq_none_iff ts).1 htn
    exact h ts hts t hmem hname

/-- C5: `merge` writes `life-span.ended` into `active_end` only when the raw
value is neither the string `"false"`, nor boolean false, nor absent; the
spec's two life-span examples hold. -/
theorem C5_active_end_guard :
    (∀ (a : Artist) (mb : MBArtist) (ow : Bool) (r : Artist),
        update_artist_from_mb a mb ow = some r →
        r.get .active_end ≠ a.get .active_end →
        ∃ v, (mb.life_span.getD {}).ended = some v ∧ v ≠ PyVal.vStr "false" ∧
          v ≠ PyVal.vBool false ∧ r.get .active_end = some v)
    ∧ (update_artist_from_mb {}
          { life_span := some { begin := some "1990", ended := some (.vStr "false") } }
          false).map (fun r => (r.get .active_start, r.get .active_end))
        = some (some (PyVal.vStr "1990"), none)
    ∧ (update_artist_from_mb {}
          { life_span := some { begin := some "1990", ended := some (.vStr "2020") } }
          false).map (fun r => (r.get .active_start, r.get .active_end))
        = some (some (PyVal.vStr "1990"), some (PyVal.vStr "2020")) := by
  refine ⟨?_, rfl, rfl⟩
  intro a mb ow r h hne
  have hr := update_get a mb ow r h .active_end
  simp only [candidate] at hr
  by_cases he : ended_flag (mb.life_span.getD {}).ended = true
  · rw [if_pos he] at hr
    cases hv : (mb.life_span.getD {}).ended with
    | none => rw [hv] at he; simp [ended_flag] at he
    | some v =>
        rw [hv] at hr he
        have h1 : v ≠ PyVal.vStr "false" := by
          intro heq; subst heq; simp [ended_flag] at he
        have h2 : v ≠ PyVal.vBool false := by
          intro heq; subst heq; simp [ended_flag] at he
        refine ⟨v, rfl, h1, h2, ?_⟩
        simp only [merge_one] at hr
        cases hcond : (ow || pyEmpty (a.get FieldKey.active_end)) with
        | true => rw [hcond] at hr; simpa using hr
        | false =>
            rw [hcond] at hr
            simp at hr
            exact absurd hr hne
  · rw [if_neg he, merge_one_none] at hr
    exact absurd hr hne

/-- C6: `merge` normalizes gender case-insensitively, `male`→`M`,
`female`→`F`; any other value yields no candidate, and the local gender is
left untouched even under `overwrite=true`. -/
theorem C6_gender_normalization :
    (∀ (a : Artist) (mb : MBArtist) (ow : Bool) (r : Artist),
        update_artist_from_mb a mb ow = some r →
        ((py_lower (mb.gender.getD "") = "male" → truthyStr mb.gender = true →
            (ow = true ∨ pyEmpty (a.get .gender) = true) →
            r.get .gender = some (PyVal.vStr "M"))
          ∧ (py_lower (mb.gender.getD "") = "female" → truthyStr mb.gender = true →
              (ow = true ∨ pyEmpty (a.get .gender) = true) →
              r.get .gender = some (PyVal.vStr "F"))
          ∧ (py_lower (mb.gender.getD "") ≠ "male" →
              py_lower (mb.gender.getD "") ≠ "female" →
              r.get .gender = a.get .gender)))
    ∧ (update_artist_from_mb {} { gender := some "Male" } false).map
        (fun r => r.get .gender) = some (some (PyVal.vStr "M"))
    ∧ (update_artist_from_mb {} { gender := some "Female" } false).map
        (fun r => r.get .gender) = some (some (PyVal.vStr "F"))
    ∧ (∀ ow, (update_artist_from_mb {} { gender := some "Other" } ow).map
        (fun r => r.get .gender) = some none) := by
  refine ⟨?_, rfl, rfl, fun ow => rfl⟩
  intro a mb ow r h
  have hr := update_get a mb ow r h .gender
  simp only [candidate] at hr
  refine ⟨?_, ?_, ?_⟩
  · intro hm ht hcond
    rw [if_pos ht] at hr
    simp only [normalize_gender, hm] at hr
    rcases hcond with how | hemp
    · simp [merge_one, how] at hr; exact hr
    · simp [merge_one, hemp] at hr; exact hr
  · intro hf ht hcond
    rw [if_pos ht] at hr
    simp only [normalize_gender, hf] at hr
    rcases hcond with how | hemp
    · simp [merge_one, how] at hr; exact hr
    · simp [merge_one, hemp] at hr; exact hr
  · intro hm hf
    by_cases ht : truthyStr mb.gender = true
    · rw [if_pos ht] at hr
      simp only [normalize_gender, beq_iff_eq, hm, hf, if_false,
        merge_one_none] at hr
      exact hr
    · rw [if_neg ht, merge_one_none] at hr
      exact hr

/-- C7: `merge` never writes a field whose derived candidate is absent; every
field is either unchanged or set to its candidate when the overwrite policy
permits. -/
theorem C7_candidate_policy (a : Artist) (mb : MBArtist) (ow : Bool)
    (r : Artist) (h : update_artist_from_mb a mb ow = some r) (f : FieldKey) :
    (candidate mb f = none → r.get f = a.get f)
    ∧ (r.get f = a.get f ∨
        ∃ v, candidate mb f = some v ∧ r.get f = some v ∧
          (ow = true ∨ pyEmpty (a.get f) = true)) := by
  have hr := update_get a mb ow r h f
  constructor
  · intro hc; rw [hc, merge_one_none] at hr; exact hr
  · cases hc : candidate mb f with
    | none => rw [hc, merge_one_none] at hr; exact Or.inl hr
    | some v =>
        rw [hc] at hr
        simp only [merge_one] at hr
        cases how : ow with
        | true =>
            right
            refine ⟨v, rfl, ?_, Or.inl rfl⟩
            rw [how] at hr; simpa using hr
        | false =>
            cases hemp : pyEmpty (a.get f) with
            | true =>
                right
                refine ⟨v, rfl, ?_, Or.inr rfl⟩
                rw [how, hemp] at hr; simpa using hr
            | false =>
                left
                rw [how, hemp] at hr; simpa using hr

theorem C7_witness :
    (candidate {} FieldKey.name = none →
      Artist.get {} FieldKey.name = Artist.get {} FieldKey.name)
    ∧ (Artist.get {} FieldKey.name = Artist.get {} FieldKey.name ∨
        ∃ v, candidate {} FieldKey.name = some v ∧
          Artist.get {} FieldKey.name = some v ∧
          (false = true ∨ pyEmpty (Artist.get {} FieldKey.name) = true)) :=
  C7_candidate_policy {} {} false {} rfl FieldKey.name

/-- C9: `merge` sets nationality to the literal `"Italia"` iff some alias
locale starts with `"it"` and the field-set policy permits the write;
otherwise nationality is untouched. -/
theorem C9_nationality_rule (a : Artist) (mb : MBArtist) (ow : Bool)
    (r : Artist) (h : update_artist_from_mb a mb ow = some r) :
    ((mb.alias_list.getD []).any
        (fun al => py_startswith (al.locale.getD "") "it") = true →
      ((ow = true ∨ pyEmpty (a.get .nationality) = true) →
          r.get .nationality = some (PyVal.vStr "Italia"))
      ∧ (ow = false → pyEmpty (a.get .nationality) = false →
          r.get .nationality = a.get .nationality))
    ∧ ((mb.alias_list.getD []).any
        (fun al => py_startswith (al.locale.getD "") "it") = false →
      r.get .nationality = a.get .nationality) := by
  have hr := update_get a mb ow r h .nationality
  simp only [candidate] at hr
  constructor
  · intro hany
    rw [if_pos hany] at hr
    constructor
    · intro hcond
      simp only [merge_one] at hr
      rcases hcond with how | hemp
      · simp [how] at hr; exact hr
      · simp [hemp] at hr; exact hr
    · intro how hemp
      simp only [merge_one, how, hemp] at hr
      simpa using hr
  · intro hany
    have hny : ¬((mb.alias_list.getD []).any
        (fun al => py_startswith (al.locale.getD "") "it") = true) := by
      simp [hany]
    rw [if_neg hny, merge_one_none] at hr
    exact hr

theorem C9_witness :
    ((({ alias_list := some [{ locale := some "it-IT" }] } : MBArtist).alias_list.getD
        []).any (fun al => py_startswith (al.locale.getD "") "it") = true →
      ((false = true ∨ pyEmpty (Artist.get {} .nationality) = true) →
          Artist.get { nationality := some (PyVal.vStr "Italia") } .nationality
            = some (PyVal.vStr "Italia"))
      ∧ (false = false → pyEmpty (Artist.get {} .nationality) = false →
          Artist.get { nationality := some (PyVal.vStr "Italia") } .nationality
            = Artist.get {} .nationality))
    ∧ ((({ alias_list := some [{ locale := some "it-IT" }] } : MBArtist).alias_list.getD
        []).any (fun al => py_startswith (al.locale.getD "") "it") = false →
      Artist.get { nationality := some (PyVal.vStr "Italia") } .nationality
        = Artist.get {} .nationality) :=
  C9_nationality_rule {} { alias_list := some [{ locale := some "it-IT" }] } false
    { nationality := some (PyVal.vStr "Italia") } rfl

theorem name_clause_ne_country_clause (s code : String) :
    "name:\"" ++ s ++ "\"" ≠ "country:\"" ++ code ++ "\"" := by
  intro h
  have hd : ("name:\"" ++ s ++ "\"").data = ("country:\"" ++ code ++ "\"").data :=
    congrArg String.data h
  simp only [String.data_append] at hd
  simp at hd

theorem country_clause_ne_empty (code : String) :
    ("country:\"" ++ code ++ "\"") ≠ "" := by
  intro h
  have hd := congrArg String.data h
  simp only [String.data_append] at hd
  simp at hd

theorem joined_clauses_ne_empty (b code : String) :
    (b ++ " AND " ++ ("country:\"" ++ code ++ "\"")) ≠ "" := by
  intro h
  have hd := congrArg String.data h
  simp only [String.data_append] at hd
  simp at hd

theorem build_clauses_shape (a : Artist) (cs : List String)
    (hcs : build_clauses a = some cs) :
    ∃ cc,
      (∃ code, cc = "country:\"" ++ code ++ "\"")
      ∧ ((truthyOpt (a.get .name) = true ∧
            ∃ v, a.get .name = some v ∧ cs = ["name:\"" ++ pyStr v ++ "\"", cc])
        ∨ (truthyOpt (a.get .name) = false ∧ cs = [cc]))
      ∧ (truthyOpt (a.get .country) = false → cc = "country:\"IT\"") := by
  simp only [build_clauses] at hcs
  cases hn : a.get FieldKey.name with
  | none =>
      cases hc : a.get FieldKey.country with
      | none =>
          simp [hn, hc] at hcs
          subst hcs
          exact ⟨"country:\"IT\"", ⟨"IT", rfl⟩,
            Or.inr ⟨by simp [truthyOpt, hn], rfl⟩, fun _ => rfl⟩
      | some w =>
          cases htw : pyTruthy w with
          | false =>
              simp [hn, hc, htw] at hcs
              subst hcs
              exact ⟨"country:\"IT\"", ⟨"IT", rfl⟩,
                Or.inr ⟨by simp [truthyOpt, hn], rfl⟩, fun _ => rfl⟩
          | true =>
              cases hcc : country_code w with
              | none => simp [hn, hc, htw, hcc] at hcs
              | some code =>
                  simp [hn, hc, htw, hcc] at hcs
                  subst hcs
                  refine ⟨"country:\"" ++ code ++ "\"", ⟨code, rfl⟩,
                    Or.inr ⟨by simp [truthyOpt, hn], rfl⟩, ?_⟩
                  intro hcf
                  simp [truthyOpt, htw] at hcf
  | some v =>
      cases htv : pyTruthy v with
      | false =>
          cases hc : a.get FieldKey.country with
          | none =>
              simp [hn, htv, hc] at hcs
              subst hcs
              exact ⟨"country:\"IT\"", ⟨"IT", rfl⟩,
                Or.inr ⟨by simp [truthyOpt, hn, htv], rfl⟩, fun _ => rfl⟩
          | some w =>
              cases htw : pyTruthy w with
              | false =>
                  simp [hn, htv, hc, htw] at hcs
                  subst hcs
                  exact ⟨"country:\"IT\"", ⟨"IT", rfl⟩,
                    Or.inr ⟨by simp [truthyOpt, hn, htv], rfl⟩, fun _ => rfl⟩
              | true =>
                  cases hcc : country_code w with
                  | none => simp [hn, htv, hc, htw, hcc] at hcs
                  | some code =>
                      simp [hn, htv, hc, htw, hcc] at hcs
                      subst hcs
                      refine ⟨"country:\"" ++ code ++ "\"", ⟨code, rfl⟩,
                        Or.inr ⟨by simp [truthyOpt, hn, htv], rfl⟩, ?_⟩
                      intro hcf
                      simp [truthyOpt, htw] at hcf
      | true =>
          cases hc : a.get FieldKey.country with
          | none =>
              simp [hn, htv, hc] at hcs
              subst hcs
              exact ⟨"country:\"IT\"", ⟨"IT", rfl⟩,
                Or.inl ⟨by simp [truthyOpt, hn, htv], v, rfl, rfl⟩, fun _ => rfl⟩
          | some w =>
              cases htw : pyTruthy w with
              | false =>
                  simp [hn, htv, hc, htw] at hcs
                  subst hcs
                  exact ⟨"country:\"IT\"", ⟨"IT", rfl⟩,
                    Or.inl ⟨by simp [truthyOpt, hn, htv], v, rfl, rfl⟩, fun _ => rfl⟩
              | true =>
                  cases hcc : country_code w with
                  | none => simp [hn, htv, hc, htw, hcc] at hcs
                  | some code =>
                      simp [hn, htv, hc, htw, hcc] at hcs
                      subst hcs
                      refine ⟨"country:\"" ++ code ++ "\"", ⟨code, rfl⟩,
                        Or.inl ⟨by simp [truthyOpt, hn, htv], v, rfl, rfl⟩, ?_⟩
                      intro hcf
                      simp [truthyOpt, htw] at hcf

/-- C8: `build_query` emits the name clause exactly when the name is present
(truthy), defaults the country clause to `country:"IT"` when the country is
absent, joins clauses with `" AND "`, and satisfies the spec's three
examples (the `France` case raises the key lookup error). -/
theorem C8_build_query_clauses :
    build_query { name := some (.vStr "Verdi"), country := some (.vStr "Italia") }
      = some "name:\"Verdi\" AND country:\"IT\""
    ∧ build_query { name := some (.vStr "Verdi") }
      = some "name:\"Verdi\" AND country:\"IT\""
    ∧ build_query { name := some (.vStr "Verdi"), country := some (.vStr "France") }
      = none
    ∧ (∀ (a : Artist) (cs : List String), build_clauses a = some cs →
        build_query a = some (String.intercalate " AND " cs)
        ∧ (truthyOpt (a.get .name) = true →
            ∃ v cc, a.get .name = some v ∧ cs = ["name:\"" ++ pyStr v ++ "\"", cc])
        ∧ (truthyOpt (a.get .name) = false → ∃ cc, cs = [cc])
        ∧ (truthyOpt (a.get .country) = false →
            cs.getLast? = some "country:\"IT\"")) := by
  refine ⟨rfl, rfl, rfl, ?_⟩
  intro a cs hcs
  obtain ⟨cc, hcode, hshape, hdef⟩ := build_clauses_shape a cs hcs
  refine ⟨by rw [build_query, hcs]; rfl, ?_, ?_, ?_⟩
  · intro ht
    rcases hshape with ⟨_, v, hv, hcsEq⟩ | ⟨hf, _⟩
    · exact ⟨v, cc, hv, hcsEq⟩
    · simp [ht] at hf
  · intro ht
    rcases hshape with ⟨htr, _⟩ | ⟨_, hcsEq⟩
    · simp [ht] at htr
    · exact ⟨cc, hcsEq⟩
  · intro hcf
    rcases hshape with ⟨_, v, hv, hcsEq⟩ | ⟨_, hcsEq⟩ <;> subst hcsEq <;>
      rw [hdef hcf] <;> rfl

/-- C10: every successful `build_query` has a non-empty clause list whose
last clause is the unique country clause, and the returned string is never
empty (the spec's empty-string case is unreachable). -/
theorem C10_country_clause_last (a : Artist) (cs : List String)
    (h : build_clauses a = some cs) :
    cs ≠ []
    ∧ (∃ c, cs.getLast? = some c ∧ ∃ code, c = "country:\"" ++ code ++ "\"")
    ∧ (∀ c ∈ cs.dropLast, ¬∃ code, c = "country:\"" ++ code ++ "\"")
    ∧ ∀ r, build_query a = some r → r ≠ "" := by
  obtain ⟨cc, ⟨code, hcode⟩, hshape, _⟩ := build_clauses_shape a cs h
  rcases hshape with ⟨_, v, hv, hcsEq⟩ | ⟨_, hcsEq⟩ <;> subst hcsEq
  · refine ⟨by simp, ⟨cc, rfl, code, hcode⟩, ?_, ?_⟩
    · intro c hcmem
      simp at hcmem
      subst hcmem
      rintro ⟨code2, habs⟩
      exact name_clause_ne_country_clause (pyStr v) code2 habs
    · intro r hrq
      rw [build_query, h] at hrq
      simp only [Option.map_some', Option.some.injEq] at hrq
      rw [← hrq, hcode]
      exact joined_clauses_ne_empty _ code
  · refine ⟨by simp, ⟨cc, rfl, code, hcode⟩, ?_, ?_⟩
    · intro c hcmem
      simp at hcmem
    · intro r hrq
      rw [build_query, h] at hrq
      simp only [Option.map_some', Option.some.injEq] at hrq
      rw [← hrq, hcode]
      exact country_clause_ne_empty code

theorem C10_witness :
    (["country:\"IT\""] : List String) ≠ []
    ∧ (∃ c, (["country:\"IT\""] : List String).getLast? = some c ∧
        ∃ code, c = "country:\"" ++ code ++ "\"")
    ∧ (∀ c ∈ (["country:\"IT\""] : List String).dropLast,
        ¬∃ code, c = "country:\"" ++ code ++ "\"")
    ∧ ∀ r, build_query {} = some r → r ≠ "" :=
  C10_country_clause_last {} ["country:\"IT\""] rfl
